import Mathlib

/-!
# Verification of the documentation-extraction pipeline

Shallow embedding of `site/scripts/extract-docs.mjs` (the core of the
formulary-registry repository): JSON value model with JavaScript-flavoured
coercions, the archive-entry lookups, keyword normalization, search-index
construction, API-doc generation, readme synthesis, and the per-version
processing loop.  Strings model JavaScript strings; paths are plain strings
(no `..`-resolution is modelled).
-/

namespace ExtractDocs

/-! ## JavaScript string helpers -/

/-- ASCII lowering of one character, as `String.prototype.toLowerCase`
acts on the ASCII range (the entry names compared in the script are ASCII). -/
def jsLowerChar (c : Char) : Char :=
  if 65 ≤ c.toNat ∧ c.toNat ≤ 90 then Char.ofNat (c.toNat + 32) else c

/-- `String.prototype.toLowerCase`, restricted to ASCII case mapping. -/
def jsToLowerCase (s : String) : String :=
  ⟨s.data.map jsLowerChar⟩

/-- The JavaScript `\s` character class (whitespace as used by
`String.prototype.trim` and the `/\s+/` regex). -/
def isJsWs (c : Char) : Bool :=
  c = ' ' ∨ c = '\t' ∨ c = '\n' ∨ c = '\r' ∨ c = '\x0b' ∨ c = '\x0c' ∨
  c.toNat = 0xa0 ∨ c.toNat = 0x1680 ∨ (0x2000 ≤ c.toNat ∧ c.toNat ≤ 0x200a) ∨
  c.toNat = 0x2028 ∨ c.toNat = 0x2029 ∨ c.toNat = 0x202f ∨ c.toNat = 0x205f ∨
  c.toNat = 0x3000 ∨ c.toNat = 0xfeff

/-- Collapse every maximal run of spaces to a single space. -/
def squeezeSpaces : List Char → List Char
  | [] => []
  | [c] => [c]
  | c1 :: c2 :: cs =>
    if c1 = ' ' ∧ c2 = ' ' then squeezeSpaces (c2 :: cs)
    else c1 :: squeezeSpaces (c2 :: cs)
termination_by structural l => l

/-- `.replace(/\s+/g, ' ').trim()`: every whitespace character becomes a
space, maximal runs collapse to one space, and leading/trailing whitespace
is removed. -/
def jsCollapseTrim (s : String) : String :=
  let l := s.data.map (fun c => if isJsWs c then ' ' else c)
  let l := squeezeSpaces l
  ⟨((l.dropWhile (· = ' ')).reverse.dropWhile (· = ' ')).reverse⟩

/-- `String.prototype.trim`. -/
def jsTrim (s : String) : String :=
  ⟨((s.data.dropWhile isJsWs).reverse.dropWhile isJsWs).reverse⟩

/-- `.replace(/'/g, '"')`. -/
def sanitizeQuotes (s : String) : String :=
  ⟨s.data.map (fun c => if c = '\'' then '"' else c)⟩

/-- `.replace(/^['"]|['"]$/g, '')`: remove one leading and one trailing
quote character (single or double). -/
def stripQuotePair (s : String) : String :=
  let l := s.data
  let l := match l with
    | c :: rest => if c = '\'' ∨ c = '"' then rest else c :: rest
    | [] => []
  let l := match l.reverse with
    | c :: rest => if c = '\'' ∨ c = '"' then rest.reverse else (c :: rest).reverse
    | [] => []
  ⟨l⟩

/-- `.replace(/"/g, '\\"')`. -/
def escQuotes (s : String) : String :=
  ⟨s.data.foldr (fun c acc => if c = '"' then '\\' :: '"' :: acc else c :: acc) []⟩

/-- Boolean interpolation `${b}`. -/
def boolStr (b : Bool) : String := if b then "true" else "false"

/-- `String.prototype.startsWith`. -/
def jsStartsWith (s pre : String) : Bool := pre.data.isPrefixOf s.data

/-- `String.prototype.endsWith`. -/
def jsEndsWith (s suf : String) : Bool := suf.data.isSuffixOf s.data

/-- `String.prototype.includes` on character lists. -/
def listContains (hay needle : List Char) : Bool :=
  match hay with
  | [] => needle.isEmpty
  | _ :: t => needle.isPrefixOf hay || listContains t needle

/-- `String.prototype.split(',')` (splits at every comma, keeping empty
pieces). -/
def splitCommaAux : List Char → List Char → List String
  | [], acc => [⟨acc.reverse⟩]
  | c :: cs, acc =>
    if c = ',' then (⟨acc.reverse⟩ : String) :: splitCommaAux cs []
    else splitCommaAux cs (c :: acc)

def jsSplitComma (s : String) : List String := splitCommaAux s.data []

/-! ## JSON values

The dynamic values flowing through the script.  Numbers keep their source
token (the script never does arithmetic on them; stringification of a
number token is the token itself for the canonical tokens that occur). -/

inductive Json where
  | str (s : String)
  | num (tok : String)
  | bool (b : Bool)
  | null
  | arr (xs : List Json)
  | obj (fields : List (String × Json))

/-- A number token denotes zero iff every digit of its mantissa is `0`. -/
def numIsZero (tok : String) : Bool :=
  let mantissa := tok.data.takeWhile (fun c => c ≠ 'e' ∧ c ≠ 'E')
  (mantissa.filter Char.isDigit).all (· = '0')

/-- JavaScript truthiness of a value. -/
def jsTruthy : Json → Bool
  | .str s => !s.data.isEmpty
  | .num tok => !numIsZero tok
  | .bool b => b
  | .null => false
  | .arr _ => true
  | .obj _ => true

/-- Truthiness of a possibly-`undefined` value (`undefined` is `none`). -/
def jsTruthyOpt : Option Json → Bool
  | none => false
  | some j => jsTruthy j

mutual

/-- `String(v)` / template-literal interpolation of a value. -/
def jsToString : Json → String
  | .str s => s
  | .num tok => tok
  | .bool b => boolStr b
  | .null => "null"
  | .arr xs => jsArrToString xs
  | .obj _ => "[object Object]"
termination_by structural j => j

/-- `Array.prototype.toString` = `join(',')`; `null` elements render empty. -/
def jsArrToString : List Json → String
  | [] => ""
  | [j] => (match j with | .null => "" | j' => jsToString j')
  | j :: rest => (match j with | .null => "" | j' => jsToString j') ++ "," ++ jsArrToString rest
termination_by structural l => l

end

/-- One element under `Array.prototype.join`: `null` renders empty. -/
def jsElemStr : Json → String
  | .null => ""
  | j => jsToString j

/-- `Array.prototype.join(sep)`. -/
def jsJoinSep (sep : String) (xs : List Json) : String :=
  String.intercalate sep (xs.map jsElemStr)

/-- JavaScript object-key semantics for a parsed field list: keys keep
their first-occurrence position, later duplicates overwrite the value. -/
def jsObjDedup (l : List (String × Json)) : List (String × Json) :=
  l.foldl (fun acc kv =>
    if acc.any (fun p => p.1 == kv.1) then
      acc.map (fun p => if p.1 == kv.1 then (p.1, kv.2) else p)
    else acc ++ [kv]) []

/-- `Object.entries`. -/
def jsEntries : Json → List (String × Json)
  | .obj fs => jsObjDedup fs
  | .arr xs => xs.enum.map (fun p => (toString p.1, p.2))
  | .str s => s.data.enum.map (fun p => (toString p.1, Json.str ⟨[p.2]⟩))
  | _ => []

/-- Member access `v.k`.  JavaScript throws a `TypeError` on member access
of `null`; descriptors consisting of the bare JSON text `null` do not occur
in this registry, and the embedding returns `undefined` (`none`) there. -/
def jsField : Json → String → Option Json
  | .obj fs, k => ((jsObjDedup fs).find? (fun p => p.1 == k)).map (·.2)
  | _, _ => none

/-! ## `JSON.parse`

A recursive-descent parser for the JSON grammar.  Fuel only bounds the
recursion depth; `jsonParse` supplies more fuel than any input of its
length can consume, so a `none` result means the input is not valid JSON. -/

/-- JSON insignificant whitespace. -/
def isJsonWs (c : Char) : Bool := c = ' ' ∨ c = '\t' ∨ c = '\n' ∨ c = '\r'

def skipJsonWs (cs : List Char) : List Char := cs.dropWhile isJsonWs

def hexVal (c : Char) : Option Nat :=
  if '0' ≤ c ∧ c ≤ '9' then some (c.toNat - 48)
  else if 'a' ≤ c ∧ c ≤ 'f' then some (c.toNat - 87)
  else if 'A' ≤ c ∧ c ≤ 'F' then some (c.toNat - 55)
  else none

/-- Fractional part of a number literal (`('.' [0-9]+)?`). -/
def parseFrac (tok : List Char) (cs : List Char) : Option (List Char × List Char) :=
  match cs with
  | '.' :: r =>
    let ds := r.takeWhile Char.isDigit
    if ds.isEmpty then none else some (tok ++ '.' :: ds, r.dropWhile Char.isDigit)
  | _ => some (tok, cs)

/-- Exponent part of a number literal (`([eE] [+-]? [0-9]+)?`). -/
def parseExp (tok : List Char) (cs : List Char) : Option (List Char × List Char) :=
  match cs with
  | e :: r =>
    if e = 'e' ∨ e = 'E' then
      let (sgn, r1) := match r with
        | '+' :: r' => (['+'], r')
        | '-' :: r' => (['-'], r')
        | _ => (([] : List Char), r)
      let ds := r1.takeWhile Char.isDigit
      if ds.isEmpty then none
      else some (tok ++ e :: (sgn ++ ds), r1.dropWhile Char.isDigit)
    else some (tok, cs)
  | [] => some (tok, cs)

/-- Integer part of a number literal: `'-'? ('0' | [1-9][0-9]*)`,
rejecting leading zeros as JSON does. -/
def parseIntPart (cs : List Char) : Option (List Char × List Char) :=
  let (sign, cs1) := match cs with
    | '-' :: r => ((['-'] : List Char), r)
    | _ => (([] : List Char), cs)
  match cs1 with
  | '0' :: r =>
    match r with
    | d :: _ => if d.isDigit then none else some (sign ++ ['0'], r)
    | [] => some (sign ++ ['0'], [])
  | c :: r =>
    if c.isDigit then
      some (sign ++ (c :: r).takeWhile Char.isDigit, (c :: r).dropWhile Char.isDigit)
    else none
  | [] => none

/-- A full JSON number token. -/
def parseNumTok (cs : List Char) : Option (Json × List Char) := do
  let (tok1, cs1) ← parseIntPart cs
  let (tok2, cs2) ← parseFrac tok1 cs1
  let (tok3, cs3) ← parseExp tok2 cs2
  some (Json.num ⟨tok3⟩, cs3)

mutual

/-- One JSON value, leading whitespace allowed. -/
def parseVal : Nat → List Char → Option (Json × List Char)
  | 0, _ => none
  | fuel + 1, cs =>
    match skipJsonWs cs with
    | '"' :: rest => (parseStr fuel [] rest).map (fun p => (Json.str p.1, p.2))
    | '[' :: rest =>
      (match skipJsonWs rest with
       | ']' :: rest' => some (Json.arr [], rest')
       | _ => (parseElems fuel rest).map (fun p => (Json.arr p.1, p.2)))
    | '\x7b' :: rest =>
      (match skipJsonWs rest with
       | '\x7d' :: rest' => some (Json.obj [], rest')
       | _ => (parseFields fuel rest).map (fun p => (Json.obj (jsObjDedup p.1), p.2)))
    | 't' :: 'r' :: 'u' :: 'e' :: rest => some (Json.bool true, rest)
    | 'f' :: 'a' :: 'l' :: 's' :: 'e' :: rest => some (Json.bool false, rest)
    | 'n' :: 'u' :: 'l' :: 'l' :: rest => some (Json.null, rest)
    | c :: rest => if c = '-' ∨ c.isDigit then parseNumTok (c :: rest) else none
    | [] => none

/-- A string body, opening quote already consumed. -/
def parseStr : Nat → List Char → List Char → Option (String × List Char)
  | 0, _, _ => none
  | fuel + 1, acc, cs =>
    match cs with
    | '"' :: rest => some (⟨acc.reverse⟩, rest)
    | '\\' :: esc :: rest =>
      (match esc with
       | '"' => parseStr fuel ('"' :: acc) rest
       | '\\' => parseStr fuel ('\\' :: acc) rest
       | '/' => parseStr fuel ('/' :: acc) rest
       | 'b' => parseStr fuel ('\x08' :: acc) rest
       | 'f' => parseStr fuel ('\x0c' :: acc) rest
       | 'n' => parseStr fuel ('\n' :: acc) rest
       | 'r' => parseStr fuel ('\r' :: acc) rest
       | 't' => parseStr fuel ('\t' :: acc) rest
       | 'u' =>
         (match rest with
          | h1 :: h2 :: h3 :: h4 :: rest' =>
            (match hexVal h1, hexVal h2, hexVal h3, hexVal h4 with
             | some a, some b, some c, some d =>
               parseStr fuel (Char.ofNat (((a * 16 + b) * 16 + c) * 16 + d) :: acc) rest'
             | _, _, _, _ => none)
          | _ => none)
       | _ => none)
    | c :: rest => if c.toNat < 32 then none else parseStr fuel (c :: acc) rest
    | [] => none

/-- Array elements after `[`, at least one element. -/
def parseElems : Nat → List Char → Option (List Json × List Char)
  | 0, _ => none
  | fuel + 1, cs => do
    let (v, rest) ← parseVal fuel cs
    match skipJsonWs rest with
    | ',' :: rest' => do
      let (vs, rest'') ← parseElems fuel rest'
      some (v :: vs, rest'')
    | ']' :: rest' => some ([v], rest')
    | _ => none

/-- Object members after an opening brace, at least one member. -/
def parseFields : Nat → List Char → Option (List (String × Json) × List Char)
  | 0, _ => none
  | fuel + 1, cs =>
    match skipJsonWs cs with
    | '"' :: rest => do
      let (k, rest1) ← parseStr fuel [] rest
      match skipJsonWs rest1 with
      | ':' :: rest2 => do
        let (v, rest3) ← parseVal fuel rest2
        match skipJsonWs rest3 with
        | ',' :: rest4 => do
          let (fs, rest5) ← parseFields fuel rest4
          some ((k, v) :: fs, rest5)
        | c :: rest4 => if c = '\x7d' then some ([(k, v)], rest4) else none
        | [] => none
      | _ => none
    | _ => none

end

/-- `JSON.parse`: parse one value and require only whitespace after it. -/
def jsonParse (s : String) : Option Json :=
  match parseVal (2 * s.data.length + 16) s.data with
  | some (v, rest) => if (skipJsonWs rest).isEmpty then some v else none
  | none => none

/-! ## Data model

The registry shape from `index.json` and the per-version archive.  An
archive path is keyed registry-root-relative (the script prefixes
`REGISTRY_ROOT`, a fixed constant, which the embedding leaves implicit).
Output paths are relative to the version's output directory. -/

structure Entry where
  entryName : String
  isDirectory : Bool
  data : String
deriving DecidableEq

inductive ArchiveFile where
  | corrupt
  | zip (entries : List Entry)
deriving DecidableEq

structure VersionRecord where
  path : String
  dependencies : List String
deriving DecidableEq

structure PackageRecord where
  description : String
  owners : List String
  versions : List (String × VersionRecord)
  latest : String
deriving DecidableEq

abbrev Registry := List (String × PackageRecord)

/-- The file system seen by the script: `none` = the archive file is
missing, `corrupt` = present but `new AdmZip(...)` throws. -/
abbrev Store := String → Option ArchiveFile

/-! ## Archive Extractor (lines 34-73) -/

/-- `zipEntries.find(e => e.entryName.toLowerCase() === target)`. -/
def findByLowerName (target : String) (es : List Entry) : Option Entry :=
  es.find? (fun e => jsToLowerCase e.entryName == target)

def readmeEntryOf (es : List Entry) : Option Entry := findByLowerName "readme.md" es

def projectEntryOf (es : List Entry) : Option Entry := findByLowerName "__gsproject__.json" es

def functionsEntryOf (es : List Entry) : Option Entry := findByLowerName "functions.json" es

/-- Recovered readme text; stays `''` when no entry matches. -/
def readmeTextOf (es : List Entry) : String :=
  match readmeEntryOf es with
  | some e => e.data
  | none => ""

/-- The project descriptor; `{}` when absent or when parsing throws. -/
def projectConfigOf (es : List Entry) : Json :=
  match projectEntryOf es with
  | some e =>
    match jsonParse e.data with
    | some j => j
    | none => Json.obj []
  | none => Json.obj []

/-- The function manifest; `null` (`none`) when absent or unparseable. -/
def functionsDataOf (es : List Entry) : Option Json :=
  match functionsEntryOf es with
  | some e => jsonParse e.data
  | none => none

/-- The `docs/` copy filter (line 66). -/
def isDocsFileEntry (e : Entry) : Bool :=
  jsStartsWith e.entryName "docs/" && !e.isDirectory

/-- File writes performed by the `docs/` copy loop, as
(output-directory-relative path, bytes); `path.join(outputDir, 'docs',
relativePath)` is modelled as the plain path `"docs/" ++ relativePath`. -/
def docsWritesOf (es : List Entry) : List (String × String) :=
  es.filterMap (fun e =>
    if isDocsFileEntry e then some ("docs/" ++ (⟨e.entryName.data.drop 5⟩ : String), e.data)
    else none)

def hasDocsOf (es : List Entry) : Bool := es.any isDocsFileEntry

/-! ## Metadata Normalizer (lines 88-106) -/

/-- The manual-stripping fallback of the bracket-string branch:
`keywords.slice(1, -1).split(',').map(k => k.trim().replace(/^['"]|['"]$/g, '')).join(', ')`. -/
def fallbackStripBrackets (s : String) : String :=
  let inner : String := ⟨(s.data.drop 1).dropLast⟩
  String.intercalate ", " ((jsSplitComma inner).map (fun k => stripQuotePair (jsTrim k)))

/-- The bracket-string branch: try strict JSON after `'` → `"`, else fall
back to manual stripping, keeping the string unchanged when the parse
succeeds with a non-array. -/
def normalizeBracket (s : String) : String :=
  match jsonParse (sanitizeQuotes s) with
  | some (Json.arr xs) => jsJoinSep ", " xs
  | some _ => s
  | none => fallbackStripBrackets s

/-- Keyword normalization: `let keywords = projectConfig.keywords || ''`
followed by the array / bracket-string / pass-through branches. -/
def normalizeKw (raw : Option Json) : Json :=
  let kw : Json := match raw with
    | some j => if jsTruthy j then j else Json.str ""
    | none => Json.str ""
  match kw with
  | Json.arr xs => Json.str (jsJoinSep ", " xs)
  | Json.str s =>
    if jsStartsWith s "[" && jsEndsWith s "]" then Json.str (normalizeBracket s)
    else Json.str s
  | j => j

/-! ## Search Index Builder (lines 77-86) -/

/-- The search index: name, description, the *raw* keywords value when
truthy, then each function name and truthy description in manifest order;
joined with spaces, whitespace-collapsed, trimmed. -/
def searchIndexOf (pkgName description : String) (kwRaw : Option Json)
    (functionsData : Option Json) : String :=
  let parts : List String := [pkgName, description]
  let parts := match kwRaw with
    | some j => if jsTruthy j then parts ++ [jsToString j] else parts
    | none => parts
  let parts :=
    if jsTruthyOpt functionsData then
      parts ++ (jsEntries (functionsData.getD Json.null)).foldl (fun acc fe =>
        acc ++ [fe.1] ++ (match jsField fe.2 "description" with
          | some d => if jsTruthy d then [jsToString d] else []
          | none => [])) []
    else parts
  jsCollapseTrim (String.intercalate " " parts)

/-! ## API Doc Generator (lines 178-195) -/

/-- `x || fallback` followed by string interpolation. -/
def jsOrStr (o : Option Json) (fb : String) : String :=
  match o with
  | some d => if jsTruthy d then jsToString d else fb
  | none => fb

def generateApiDocs (functionsData : Option Json) : String :=
  if !jsTruthyOpt functionsData then ""
  else
    (jsEntries (functionsData.getD Json.null)).foldl (fun docs fe =>
      let docs := docs ++ "### `" ++ fe.1 ++ "`\n\n"
      let docs := docs ++ jsOrStr (jsField fe.2 "description") "No description provided." ++ "\n\n"
      let args := jsField fe.2 "arguments"
      if jsTruthyOpt args && (jsEntries (args.getD Json.null)).length > 0 then
        ((jsEntries (args.getD Json.null)).foldl (fun d ae =>
            d ++ "- `" ++ ae.1 ++ "`: " ++ jsOrStr (jsField ae.2 "description") "" ++ "\n")
          (docs ++ "**Arguments**:\n")) ++ "\n"
      else docs) "## API Reference\n\n"

/-! ## Frontmatter and Doc Synthesizer (lines 108-127, 152-176) -/

def hexDigit (n : Nat) : Char := if n < 10 then Char.ofNat (48 + n) else Char.ofNat (87 + n)

/-- `JSON.stringify` escaping of one string character. -/
def jsonEscapeChar (c : Char) : List Char :=
  if c = '"' then ['\\', '"']
  else if c = '\\' then ['\\', '\\']
  else if c = '\x08' then ['\\', 'b']
  else if c = '\x0c' then ['\\', 'f']
  else if c = '\n' then ['\\', 'n']
  else if c = '\r' then ['\\', 'r']
  else if c = '\t' then ['\\', 't']
  else if c.toNat < 32 then ['\\', 'u', '0', '0', hexDigit (c.toNat / 16), hexDigit (c.toNat % 16)]
  else [c]

def jsonQuote (s : String) : String :=
  ⟨'"' :: (s.data.foldr (fun c acc => jsonEscapeChar c ++ acc) ['"'])⟩

/-- `JSON.stringify` of an array of strings. -/
def jsonStringifyStrArr (l : List String) : String :=
  "[" ++ String.intercalate "," (l.map jsonQuote) ++ "]"

/-- The frontmatter template shared by the readme-present path (lines
113-122) and `synthesizeReadme` (lines 161-168); `kwNorm`, `hp`, `lic` are
`projectConfig.keywords` (after line 106), `.homepage` and `.license`. -/
def mkFrontmatter (name version description : String) (isLatest : Bool) (kwNorm : Json)
    (hp lic : Option Json) (searchIndex : String) (dependencies : List String) : String :=
  "---\ntitle: " ++ name ++
  "\nversion: " ++ version ++
  "\ndescription: " ++ description ++
  "\nlatest: " ++ boolStr isLatest ++
  (if jsTruthy kwNorm then "\nkeywords: " ++ jsToString kwNorm else "") ++
  (if jsTruthyOpt hp then "\nhomepage: " ++ jsToString (hp.getD Json.null) else "") ++
  (if jsTruthyOpt lic then "\nlicense: " ++ jsToString (lic.getD Json.null) else "") ++
  "\nsearchIndex: \"" ++ escQuotes searchIndex ++ "\"" ++
  "\ndependencies: " ++ jsonStringifyStrArr dependencies ++
  "\n---\n\n"

/-- Character class of the bare-name group in
`/^([a-z0-9-]+)(?:>=|@)?(.*)$/i`. -/
def isNameChar (c : Char) : Bool :=
  ('a' ≤ c ∧ c ≤ 'z') ∨ ('A' ≤ c ∧ c ≤ 'Z') ∨ ('0' ≤ c ∧ c ≤ '9') ∨ c = '-'

/-- Line terminators, which `.` and the other regex pieces cannot match. -/
def isLineTerm (c : Char) : Bool :=
  c = '\n' ∨ c = '\r' ∨ c.toNat = 0x2028 ∨ c.toNat = 0x2029

/-- The bare dependency name: group 1 of the regex when it matches (its
greedy first group takes the longest leading run of name characters; the
optional `>=`/`@` and trailing `.*` swallow the rest), otherwise the
specifier itself. -/
def depNameOf (d : String) : String :=
  if d.data.any isLineTerm then d
  else
    match d.data.takeWhile isNameChar with
    | [] => d
    | run => (⟨run⟩ : String)

def depLinkOf (d : String) : String :=
  "- [" ++ d ++ "](/packages/" ++ depNameOf d ++ ")"

/-- The dependency rendering computed at lines 153-159. -/
def renderDeps (deps : List String) : String :=
  if deps.length > 0 then String.intercalate "\n" (deps.map depLinkOf)
  else "_No dependencies_"

def calloutText : String :=
  "\n\n<div class=\"auto-doc-callout\">\nThis package does not have a custom README. This page was automatically generated from package metadata.\n</div>\n"

/-- `synthesizeReadme`: the fallback page.  `deps` is computed but, as in
the source, never interpolated into the returned template. -/
def synthesizeReadme (name version : String) (pkg : PackageRecord) (vr : VersionRecord)
    (functionsData : Option Json) (kwNorm : Json) (hp lic : Option Json)
    (searchIndex : String) (isLatest : Bool) : String :=
  let deps := renderDeps vr.dependencies
  let _ := deps
  mkFrontmatter name version pkg.description isLatest kwNorm hp lic searchIndex vr.dependencies
    ++ generateApiDocs functionsData ++ calloutText

/-! ## Content Writer / per-version pipeline (lines 20-149) -/

structure Metadata where
  name : String
  version : String
  description : String
  owners : List String
  dependencies : List String
  latest : Bool
  hasDocs : Bool
  keywords : Json
  homepage : Option Json
  license : Option Json
  searchIndex : String
  functions : Option Json

/-- What one loop iteration does to the world: directory creation, the
warnings it logs, the `docs/` copies, and the two written documents. -/
structure VOut where
  dirCreated : Bool
  skippedMissing : Bool
  warnings : List String
  docWrites : List (String × String)
  indexMd : Option String
  metadata : Option Metadata

/-- One (package, version) iteration, given the entry list of its archive
(`none` = archive file missing: warn and skip, directory already created). -/
def processVersion (pkgName : String) (pkg : PackageRecord) (version : String)
    (vr : VersionRecord) : Option (List Entry) → VOut
  | none =>
    { dirCreated := true, skippedMissing := true
      warnings := ["Warning: " ++ vr.path ++ " not found."]
      docWrites := [], indexMd := none, metadata := none }
  | some es =>
    let readmeText := readmeTextOf es
    let hasDocs := hasDocsOf es
    let projectConfig := projectConfigOf es
    let functionsData := functionsDataOf es
    let isLatest := pkg.latest == version
    let kwRaw := jsField projectConfig "keywords"
    let searchIndex := searchIndexOf pkgName pkg.description kwRaw functionsData
    let kwNorm := normalizeKw kwRaw
    let hp := jsField projectConfig "homepage"
    let lic := jsField projectConfig "license"
    let indexMd :=
      if readmeText = "" then
        synthesizeReadme pkgName version pkg vr functionsData kwNorm hp lic searchIndex isLatest
      else
        mkFrontmatter pkgName version pkg.description isLatest kwNorm hp lic searchIndex
          vr.dependencies
        ++ readmeText
        ++ (if jsTruthyOpt functionsData then "\n\n" ++ generateApiDocs functionsData else "")
    let descriptorWarn : List String := match projectEntryOf es with
      | some e =>
        if (jsonParse e.data).isNone then
          ["failed to parse __GSPROJECT__.json for " ++ pkgName ++ "@" ++ version]
        else []
      | none => []
    let functionsWarn : List String := match functionsEntryOf es with
      | some e =>
        if (jsonParse e.data).isNone then
          ["failed to parse functions.json for " ++ pkgName ++ "@" ++ version]
        else []
      | none => []
    { dirCreated := true, skippedMissing := false
      warnings := descriptorWarn ++ functionsWarn
      docWrites := docsWritesOf es
      indexMd := some indexMd
      metadata := some {
        name := pkgName, version := version, description := pkg.description
        owners := pkg.owners, dependencies := vr.dependencies
        latest := isLatest, hasDocs := hasDocs
        keywords := kwNorm, homepage := hp, license := lic
        searchIndex := searchIndex, functions := functionsData } }

/-- The nested `for` loops flattened: `Object.entries` iterates in
declared (insertion) order. -/
structure Item where
  pkgName : String
  pkg : PackageRecord
  version : String
  vr : VersionRecord
deriving DecidableEq

def allVersions (reg : Registry) : List Item :=
  reg.foldr (fun p acc => p.2.versions.map (fun v => ⟨p.1, p.2, v.1, v.2⟩) ++ acc) []

/-- The loop body sequence.  A corrupt archive makes `new AdmZip` throw;
nothing catches it inside `extractDocs`, so the iteration stops there
(second component `true`) and the remaining versions produce nothing. -/
def runAux (store : Store) : List Item → List (String × String × VOut) × Bool
  | [] => ([], false)
  | it :: rest =>
    match store it.vr.path with
    | some ArchiveFile.corrupt => ([], true)
    | some (ArchiveFile.zip es) =>
      let out := processVersion it.pkgName it.pkg it.version it.vr (some es)
      let r := runAux store rest
      ((it.pkgName, it.version, out) :: r.1, r.2)
    | none =>
      let out := processVersion it.pkgName it.pkg it.version it.vr none
      let r := runAux store rest
      ((it.pkgName, it.version, out) :: r.1, r.2)

/-- The whole `extractDocs` run over the registry. -/
def run (reg : Registry) (store : Store) : List (String × String × VOut) × Bool :=
  runAux store (allVersions reg)

/-- The archive entry list a non-aborting iteration works with (`none`
when the archive file is missing). -/
def archiveEntriesOf : Option ArchiveFile → Option (List Entry)
  | some (ArchiveFile.zip es) => some es
  | _ => none

/-- The per-iteration output under a given store, as `runAux` produces it. -/
def itemOut (store : Store) (x : Item) : String × String × VOut :=
  (x.pkgName, x.version, processVersion x.pkgName x.pkg x.version x.vr
    (archiveEntriesOf (store x.vr.path)))

/-! ### C7: API Doc Generator -/

/-- Right-nested concatenation of a list of strings. -/
def strConcat : List String → String
  | [] => ""
  | s :: rest => s ++ strConcat rest

/-- One argument bullet line, as the claim describes it. -/
def apiArgLine (ae : String × Json) : String :=
  "- `" ++ ae.1 ++ "`: " ++ jsOrStr (jsField ae.2 "description") "" ++ "\n"

/-- One function subsection, as the claim describes it: heading with the
name as inline code, the description or the fallback text, and — only with
at least one declared argument — the labelled bullet list in declared
order. -/
def apiDocsSection (fe : String × Json) : String :=
  "### `" ++ fe.1 ++ "`\n\n"
  ++ jsOrStr (jsField fe.2 "description") "No description provided." ++ "\n\n"
  ++ (if jsTruthyOpt (jsField fe.2 "arguments")
        && (jsEntries ((jsField fe.2 "arguments").getD Json.null)).length > 0 then
      "**Arguments**:\n"
      ++ strConcat ((jsEntries ((jsField fe.2 "arguments").getD Json.null)).map apiArgLine)
      ++ "\n"
    else "")

/-- The API reference as the claim describes it: empty for an absent
manifest, else the fixed heading followed by one subsection per function
in declared order. -/
def apiDocsSpec (fd : Option Json) : String :=
  if !jsTruthyOpt fd then ""
  else "## API Reference\n\n" ++ strConcat ((jsEntries (fd.getD Json.null)).map apiDocsSection)

/-! ### Claim-side definitions for C1 and C2 -/

/-- The Search Index Builder as claim C1 words it: identical to the
code's, except that the keywords contribution is the Metadata Normalizer's
output, included when non-empty. -/
def searchIndexClaimed (pkgName description : String) (kwRaw : Option Json)
    (functionsData : Option Json) : String :=
  let nk := normalizeKw kwRaw
  let parts : List String := [pkgName, description]
  let parts := if jsTruthy nk then parts ++ [jsToString nk] else parts
  let parts :=
    if jsTruthyOpt functionsData then
      parts ++ (jsEntries (functionsData.getD Json.null)).foldl (fun acc fe =>
        acc ++ [fe.1] ++ (match jsField fe.2 "description" with
          | some d => if jsTruthy d then [jsToString d] else []
          | none => [])) []
    else parts
  jsCollapseTrim (String.intercalate " " parts)

/-- The Search Index Builder as amended claim C1 words it: name,
description, the raw keywords value's JavaScript stringification when the
raw value is truthy, then each function name and truthy description in
manifest order; space-joined, whitespace-collapsed, trimmed. -/
def searchIndexAmended (pkgName description : String) (kwRaw : Option Json)
    (functionsData : Option Json) : String :=
  jsCollapseTrim (String.intercalate " "
    ([pkgName, description]
     ++ (if jsTruthyOpt kwRaw then [jsToString (kwRaw.getD Json.null)] else [])
     ++ (if jsTruthyOpt functionsData then
          (jsEntries (functionsData.getD Json.null)).flatMap (fun fe =>
            [fe.1] ++ (if jsTruthyOpt (jsField fe.2 "description") then
              [jsToString ((jsField fe.2 "description").getD Json.null)] else []))
        else [])))

/-- The keyword representations claim C2 quantifies over: ordered list,
bracket strings and plain strings, empty/absent. -/
def kwClaimDomain (K : Option Json) : Prop :=
  K = none ∨ (∃ xs, K = some (Json.arr xs)) ∨ (∃ t, K = some (Json.str t))

/-! ## Helper lemmas -/

theorem isPrefixOf_append_drop : ∀ (p l : List Char), p.isPrefixOf l = true →
    p ++ l.drop p.length = l := by
  intro p
  induction p with
  | nil => intro l _; simp
  | cons a p ih =>
    intro l h
    cases l with
    | nil => simp [List.isPrefixOf] at h
    | cons b t =>
      simp only [List.isPrefixOf, Bool.and_eq_true, beq_iff_eq] at h
      obtain ⟨h1, h2⟩ := h
      subst h1
      simp [ih t h2]

theorem str_ext {s t : String} (h : s.data = t.data) : s = t := by
  cases s
  cases t
  exact congrArg String.mk h

theorem str_eq_empty_of_isEmpty {s : String} (h : s.data.isEmpty = true) : s = "" := by
  cases s with
  | mk l =>
    cases l with
    | nil => rfl
    | cons c cs => exact absurd h (by simp)

theorem find?_first {α} (p : α → Bool) (pre : List α) (e : α) (post : List α)
    (h1 : ∀ x ∈ pre, p x = false) (h2 : p e = true) :
    (pre ++ e :: post).find? p = some e := by
  induction pre with
  | nil => simpa using List.find?_cons_of_pos _ h2
  | cons a l ih =>
    have ha : p a = false := h1 a (List.mem_cons_self a l)
    rw [List.cons_append, List.find?_cons_of_neg _ (by simp [ha])]
    exact ih (fun x hx => h1 x (List.mem_cons_of_mem a hx))

theorem mem_data_jsToLowerCase {s : String} {c : Char} (hc : jsLowerChar c = c)
    (h : c ∈ s.data) : c ∈ (jsToLowerCase s).data := by
  show c ∈ s.data.map jsLowerChar
  exact List.mem_map.mpr ⟨c, h, hc⟩

theorem findByLowerName_some_name {t : String} {es : List Entry} {e : Entry}
    (h : findByLowerName t es = some e) : jsToLowerCase e.entryName = t := by
  unfold findByLowerName at h
  have hp : (jsToLowerCase e.entryName == t) = true := by
    have hq := List.find?_some h
    simpa using hq
  exact eq_of_beq hp

theorem findByLowerName_some_noslash {t : String} {es : List Entry} {e : Entry}
    (h : findByLowerName t es = some e) (ht : '/' ∉ t.data) : '/' ∉ e.entryName.data := by
  intro hmem
  exact ht (findByLowerName_some_name h ▸ mem_data_jsToLowerCase (by decide) hmem)

theorem runAux_no_corrupt (store : Store) (l : List Item)
    (h : ∀ x ∈ l, store x.vr.path ≠ some ArchiveFile.corrupt) :
    runAux store l = (l.map (itemOut store), false) := by
  induction l with
  | nil => rfl
  | cons a rest ih =>
    have ha := h a (List.mem_cons_self a rest)
    have ihr := ih (fun x hx => h x (List.mem_cons_of_mem a hx))
    cases hsa : store a.vr.path with
    | none => simp [runAux, hsa, ihr, itemOut, archiveEntriesOf]
    | some af =>
      cases af with
      | corrupt => exact absurd hsa ha
      | zip es => simp [runAux, hsa, ihr, itemOut, archiveEntriesOf]

theorem runAux_abort (store : Store) (it : Item) (post : List Item)
    (hit : store it.vr.path = some ArchiveFile.corrupt) :
    ∀ pre : List Item, (∀ x ∈ pre, store x.vr.path ≠ some ArchiveFile.corrupt) →
    runAux store (pre ++ it :: post) = (pre.map (itemOut store), true) := by
  intro pre
  induction pre with
  | nil => intro _; simp [runAux, hit]
  | cons a l ih =>
    intro hpre
    have ha := hpre a (List.mem_cons_self a l)
    have ihr := ih (fun x hx => hpre x (List.mem_cons_of_mem a hx))
    cases hsa : store a.vr.path with
    | none => simp [runAux, hsa, ihr, itemOut, archiveEntriesOf]
    | some af =>
      cases af with
      | corrupt => exact absurd hsa ha
      | zip es => simp [runAux, hsa, ihr, itemOut, archiveEntriesOf]

/-! ## Claim theorems -/

/-- C10: the readme, project-descriptor and function-manifest lookups
compare the lowercased full entry name against the exact filename — so an
entry of that name inside any subdirectory (its full name contains `/`) is
never recognized — and when several entries match case-insensitively, the
first one in the archive's entry order is used. -/
theorem c10_lookups_lowercased_exact_and_first :
    (∀ es e, readmeEntryOf es = some e →
      jsToLowerCase e.entryName = "readme.md" ∧ '/' ∉ e.entryName.data)
    ∧ (∀ es e, projectEntryOf es = some e →
      jsToLowerCase e.entryName = "__gsproject__.json" ∧ '/' ∉ e.entryName.data)
    ∧ (∀ es e, functionsEntryOf es = some e →
      jsToLowerCase e.entryName = "functions.json" ∧ '/' ∉ e.entryName.data)
    ∧ (∀ (t : String) (pre : List Entry) (e : Entry) (post : List Entry),
      (∀ x ∈ pre, (jsToLowerCase x.entryName == t) = false) →
      (jsToLowerCase e.entryName == t) = true →
      findByLowerName t (pre ++ e :: post) = some e) :=
  ⟨fun _ e h => ⟨findByLowerName_some_name h, findByLowerName_some_noslash h (by decide)⟩,
   fun _ e h => ⟨findByLowerName_some_name h, findByLowerName_some_noslash h (by decide)⟩,
   fun _ e h => ⟨findByLowerName_some_name h, findByLowerName_some_noslash h (by decide)⟩,
   fun _ pre e post h1 h2 => find?_first _ pre e post h1 h2⟩

/-- Witness for C10: among `sub/readme.md`, `README.MD`, `readme.md`, the
lookup picks `README.MD` — the first case-insensitive whole-name match —
and never the subdirectory entry. -/
theorem c10_witness :
    findByLowerName "readme.md"
      ([⟨"sub/readme.md", false, "S"⟩] ++ ⟨"README.MD", false, "A"⟩ :: [⟨"readme.md", false, "B"⟩])
      = some ⟨"README.MD", false, "A"⟩ :=
  c10_lookups_lowercased_exact_and_first.2.2.2 "readme.md"
    [⟨"sub/readme.md", false, "S"⟩] ⟨"README.MD", false, "A"⟩ [⟨"readme.md", false, "B"⟩]
    (by decide) (by decide)

/-- C9: when a version's archive file exists but is not a readable zip,
the exception from `new AdmZip` propagates out of the per-version loop:
the run stops with only the earlier iterations' outputs, and no later
version of any package is processed — unlike a missing archive file. -/
theorem c9_corrupt_archive_aborts_run (reg : Registry) (store : Store)
    (pre : List Item) (it : Item) (post : List Item)
    (hsplit : allVersions reg = pre ++ it :: post)
    (hpre : ∀ x ∈ pre, store x.vr.path ≠ some ArchiveFile.corrupt)
    (hit : store it.vr.path = some ArchiveFile.corrupt) :
    run reg store = (pre.map (itemOut store), true) := by
  unfold run
  rw [hsplit]
  exact runAux_abort store it post hit pre hpre

/-- Witness for C9: the second of two versions has a corrupt archive; the
run aborts after the first version's output. -/
theorem c9_witness :
    run [("a", ⟨"da", [], [("1", ⟨"pa1", []⟩), ("2", ⟨"pa2", []⟩)], "2"⟩)]
      (fun p => if p = "pa1" then some (ArchiveFile.zip []) else
                if p = "pa2" then some ArchiveFile.corrupt else none)
      = ([itemOut (fun p => if p = "pa1" then some (ArchiveFile.zip []) else
                   if p = "pa2" then some ArchiveFile.corrupt else none)
           ⟨"a", ⟨"da", [], [("1", ⟨"pa1", []⟩), ("2", ⟨"pa2", []⟩)], "2"⟩, "1", ⟨"pa1", []⟩⟩],
         true) :=
  c9_corrupt_archive_aborts_run _ _
    [⟨"a", ⟨"da", [], [("1", ⟨"pa1", []⟩), ("2", ⟨"pa2", []⟩)], "2"⟩, "1", ⟨"pa1", []⟩⟩]
    ⟨"a", ⟨"da", [], [("1", ⟨"pa1", []⟩), ("2", ⟨"pa2", []⟩)], "2"⟩, "2", ⟨"pa2", []⟩⟩
    [] rfl (by decide) (by decide)

/-- C5: a version-local failure degrades, never aborts: with no corrupt
archive, the run reaches every (package, version) pair in order; a missing
archive skips just that version with a warning (its directory created,
nothing written); a project descriptor that fails to parse leaves the
empty descriptor, an unparseable function manifest leaves it absent, and
such a version still produces its documents. -/
theorem c5_version_failures_are_local (reg : Registry) (store : Store)
    (h : ∀ x ∈ allVersions reg, store x.vr.path ≠ some ArchiveFile.corrupt) :
    (run reg store).2 = false
    ∧ (run reg store).1 = (allVersions reg).map (itemOut store)
    ∧ (∀ x ∈ allVersions reg, store x.vr.path = none →
        itemOut store x
          = (x.pkgName, x.version, processVersion x.pkgName x.pkg x.version x.vr none)
        ∧ itemOut store x ∈ (run reg store).1
        ∧ (processVersion x.pkgName x.pkg x.version x.vr none).dirCreated = true
        ∧ (processVersion x.pkgName x.pkg x.version x.vr none).docWrites = []
        ∧ (processVersion x.pkgName x.pkg x.version x.vr none).indexMd = none
        ∧ (processVersion x.pkgName x.pkg x.version x.vr none).metadata = none
        ∧ (processVersion x.pkgName x.pkg x.version x.vr none).warnings
            = ["Warning: " ++ x.vr.path ++ " not found."])
    ∧ (∀ es e, projectEntryOf es = some e → jsonParse e.data = none →
        projectConfigOf es = Json.obj [])
    ∧ (∀ es e, functionsEntryOf es = some e → jsonParse e.data = none →
        functionsDataOf es = none)
    ∧ (∀ x ∈ allVersions reg, ∀ es, store x.vr.path = some (ArchiveFile.zip es) →
        (processVersion x.pkgName x.pkg x.version x.vr (some es)).skippedMissing = false
        ∧ (processVersion x.pkgName x.pkg x.version x.vr (some es)).indexMd ≠ none
        ∧ (processVersion x.pkgName x.pkg x.version x.vr (some es)).metadata ≠ none) := by
  have hrun := runAux_no_corrupt store (allVersions reg) h
  have h1 : (run reg store).1 = (allVersions reg).map (itemOut store) := by
    simp [run, hrun]
  refine ⟨by simp [run, hrun], h1, ?_, ?_, ?_, ?_⟩
  · intro x hx hnone
    refine ⟨by simp [itemOut, hnone, archiveEntriesOf], ?_, rfl, rfl, rfl, rfl, rfl⟩
    rw [h1]
    exact List.mem_map_of_mem _ hx
  · intro es e he hp
    simp [projectConfigOf, he, hp]
  · intro es e he hp
    simp [functionsDataOf, he, hp]
  · intro x _ es _
    refine ⟨rfl, ?_, ?_⟩ <;> simp [processVersion]

/-- Witness for C5 at a concrete registry: package `a`'s only version has
an unparseable descriptor, package `b`'s archive file is missing; the run
still completes without aborting. -/
theorem c5_witness :
    (run [("a", ⟨"da", [], [("1", ⟨"pa1", []⟩)], "1"⟩),
          ("b", ⟨"db", [], [("1", ⟨"pb1", []⟩)], "1"⟩)]
       (fun p => if p = "pa1" then
          some (ArchiveFile.zip [⟨"__GSPROJECT__.json", false, "not json"⟩]) else none)).2 = false
    ∧ projectConfigOf [⟨"__GSPROJECT__.json", false, "not json"⟩] = Json.obj []
    ∧ (processVersion "b" ⟨"db", [], [("1", ⟨"pb1", []⟩)], "1"⟩ "1" ⟨"pb1", []⟩ none).indexMd
        = none := by
  have hc := c5_version_failures_are_local
    [("a", ⟨"da", [], [("1", ⟨"pa1", []⟩)], "1"⟩), ("b", ⟨"db", [], [("1", ⟨"pb1", []⟩)], "1"⟩)]
    (fun p => if p = "pa1" then
      some (ArchiveFile.zip [⟨"__GSPROJECT__.json", false, "not json"⟩]) else none)
    (by decide)
  refine ⟨hc.1, ?_, ?_⟩
  · exact hc.2.2.2.1 [⟨"__GSPROJECT__.json", false, "not json"⟩]
      ⟨"__GSPROJECT__.json", false, "not json"⟩ rfl rfl
  · exact (hc.2.2.1 ⟨"b", ⟨"db", [], [("1", ⟨"pb1", []⟩)], "1"⟩, "1", ⟨"pb1", []⟩⟩
      (by decide) rfl).2.2.2.2.1

/-- C8: search-index generation is pure and deterministic — the search
index recorded in a version's metadata is a function of the package name,
the package description, the raw keywords field, and the function manifest
(with its declared entry order) alone; two iterations agreeing on those
four inputs produce byte-identical strings whatever else differs. -/
theorem c8_search_index_pure
    (n1 n2 v1 v2 : String) (p1 p2 : PackageRecord) (vr1 vr2 : VersionRecord)
    (es1 es2 : List Entry)
    (hn : n1 = n2) (hd : p1.description = p2.description)
    (hk : jsField (projectConfigOf es1) "keywords" = jsField (projectConfigOf es2) "keywords")
    (hf : functionsDataOf es1 = functionsDataOf es2) :
    (processVersion n1 p1 v1 vr1 (some es1)).metadata.map Metadata.searchIndex
      = (processVersion n2 p2 v2 vr2 (some es2)).metadata.map Metadata.searchIndex := by
  show some (searchIndexOf n1 p1.description (jsField (projectConfigOf es1) "keywords")
        (functionsDataOf es1))
      = some (searchIndexOf n2 p2.description (jsField (projectConfigOf es2) "keywords")
        (functionsDataOf es2))
  rw [hn, hd, hk, hf]

/-- Witness for C8: two iterations with different versions, owners,
dependencies and readmes but the same four inputs give the same index. -/
theorem c8_witness :
    (processVersion "p" ⟨"d", ["o1"], [], "1.0"⟩ "1.0" ⟨"x", ["dep"]⟩
        (some [⟨"readme.md", false, "hello"⟩])).metadata.map Metadata.searchIndex
      = (processVersion "p" ⟨"d", [], [], "2.0"⟩ "2.0" ⟨"y", []⟩
        (some [])).metadata.map Metadata.searchIndex :=
  c8_search_index_pure "p" "p" "1.0" "2.0" ⟨"d", ["o1"], [], "1.0"⟩ ⟨"d", [], [], "2.0"⟩
    ⟨"x", ["dep"]⟩ ⟨"y", []⟩ [⟨"readme.md", false, "hello"⟩] [] rfl rfl rfl rfl

theorem foldl_append_eq {α} (g : String → α → String) (f : α → String)
    (hg : ∀ acc x, g acc x = acc ++ f x) :
    ∀ (l : List α) (init : String), l.foldl g init = init ++ strConcat (l.map f) := by
  intro l
  induction l with
  | nil => intro init; simp [strConcat]
  | cons a r ih =>
    intro init
    rw [List.foldl_cons, hg, ih, List.map_cons]
    show _ = init ++ (f a ++ strConcat (r.map f))
    rw [String.append_assoc]

theorem apiStep_eq (docs : String) (fe : String × Json) :
    (if jsTruthyOpt (jsField fe.2 "arguments")
        && (jsEntries ((jsField fe.2 "arguments").getD Json.null)).length > 0 then
       ((jsEntries ((jsField fe.2 "arguments").getD Json.null)).foldl (fun d ae =>
           d ++ "- `" ++ ae.1 ++ "`: " ++ jsOrStr (jsField ae.2 "description") "" ++ "\n")
         (docs ++ "### `" ++ fe.1 ++ "`\n\n"
           ++ jsOrStr (jsField fe.2 "description") "No description provided." ++ "\n\n"
           ++ "**Arguments**:\n")) ++ "\n"
     else docs ++ "### `" ++ fe.1 ++ "`\n\n"
           ++ jsOrStr (jsField fe.2 "description") "No description provided." ++ "\n\n")
    = docs ++ apiDocsSection fe := by
  have hinner := foldl_append_eq
    (fun d (ae : String × Json) =>
      d ++ "- `" ++ ae.1 ++ "`: " ++ jsOrStr (jsField ae.2 "description") "" ++ "\n")
    apiArgLine (fun acc x => by simp [apiArgLine, String.append_assoc])
  cases hb : (jsTruthyOpt (jsField fe.2 "arguments")
      && (jsEntries ((jsField fe.2 "arguments").getD Json.null)).length > 0) with
  | false =>
    rw [if_neg (by simp [hb]), apiDocsSection, if_neg (by simp [hb])]
    simp only [String.append_assoc, String.append_empty]
  | true =>
    rw [if_pos (by simp [hb]), apiDocsSection, if_pos (by simp [hb]), hinner]
    simp only [String.append_assoc]

/-- C7: the API Doc Generator returns the empty string for an absent
function manifest, and otherwise exactly the `## API Reference` section
containing, per function in the manifest's declared order, the inline-code
heading, the description or the literal fallback `No description
provided.` when missing (absent or empty), and — only when at least one
argument is declared — the `**Arguments**:` bullet list with one line per
argument in declared order, each naming the argument in inline code
followed by its description or the empty string. -/
theorem c7_generateApiDocs_matches_spec :
    ∀ fd, generateApiDocs fd = apiDocsSpec fd := by
  intro fd
  unfold generateApiDocs apiDocsSpec
  cases h : (!jsTruthyOpt fd) with
  | false =>
    rw [if_neg (by simp [h]), if_neg (by simp [h])]
    exact foldl_append_eq _ apiDocsSection apiStep_eq _ _
  | true =>
    rw [if_pos (by simp [h]), if_pos (by simp [h])]

/-- Counterexample to C2 as stated: for the ordered list of strings
`["[x]"]` the normalized result is the string `[x]`, which has a leading
`[` and a trailing `]`, and a second normalization strips it down to `x`
— so normalization is neither bracket-free nor idempotent there. -/
theorem c2_counterexample :
    normalizeKw (some (Json.arr [Json.str "[x]"])) = Json.str "[x]"
    ∧ normalizeKw (some (normalizeKw (some (Json.arr [Json.str "[x]"])))) = Json.str "x"
    ∧ Json.str "x" ≠ Json.str "[x]"
    ∧ jsStartsWith "[x]" "[" = true ∧ jsEndsWith "[x]" "]" = true := by
  refine ⟨rfl, rfl, ?_, rfl, rfl⟩
  intro h
  injection h with h'
  exact absurd h' (by decide)

/-- C2 (amended): on the claim's representations normalization always
yields a string, and it is idempotent at every input whose normalized form
is not itself bracket-shaped (starting with `[` and ending with `]`); when
the normalized form is bracket-shaped — possible only when an element or
the pass-through string itself carries the brackets — a second pass can
change it, so bracket-freeness of the result holds only in that same
restricted sense. -/
theorem c2_amended_normalization (K : Option Json) :
    (kwClaimDomain K → ∃ s, normalizeKw K = Json.str s)
    ∧ (∀ s, normalizeKw K = Json.str s →
        (jsStartsWith s "[" && jsEndsWith s "]") = false →
        normalizeKw (some (normalizeKw K)) = normalizeKw K) := by
  constructor
  · intro hdom
    rcases hdom with h | ⟨xs, h⟩ | ⟨t, h⟩ <;> subst h
    · exact ⟨"", rfl⟩
    · exact ⟨jsJoinSep ", " xs, rfl⟩
    · cases ht : t.data.isEmpty with
      | true =>
        have hte := str_eq_empty_of_isEmpty ht
        subst hte
        exact ⟨"", rfl⟩
      | false =>
        cases hb : (jsStartsWith t "[" && jsEndsWith t "]") with
        | true => exact ⟨normalizeBracket t, by simp [normalizeKw, jsTruthy, ht, hb]⟩
        | false => exact ⟨t, by simp [normalizeKw, jsTruthy, ht, hb]⟩
  · intro s hs hbr
    rw [hs]
    cases hs0 : s.data.isEmpty with
    | true =>
      have hse := str_eq_empty_of_isEmpty hs0
      subst hse
      rfl
    | false => simp [normalizeKw, jsTruthy, hs0, hbr]

/-- Witness for C2 at the plain comma string `a, b`: in the claim's
domain, normalization yields a string, its result is not bracket-shaped,
and a second normalization leaves it unchanged. -/
theorem c2_witness :
    (∃ s, normalizeKw (some (Json.str "a, b")) = Json.str s)
    ∧ normalizeKw (some (normalizeKw (some (Json.str "a, b"))))
        = normalizeKw (some (Json.str "a, b")) :=
  ⟨(c2_amended_normalization (some (Json.str "a, b"))).1 (Or.inr (Or.inr ⟨"a, b", rfl⟩)),
   (c2_amended_normalization (some (Json.str "a, b"))).2 "a, b" rfl (by decide)⟩

/-- Counterexample to C1 as stated: for the raw keywords list
`["a", "b"]` the code's search index contains the raw JavaScript
stringification `a,b`, while the claim's version built from the Metadata
Normalizer output would contain `a, b`. -/
theorem c1_counterexample :
    searchIndexOf "p" "d" (some (Json.arr [Json.str "a", Json.str "b"])) none = "p d a,b"
    ∧ searchIndexClaimed "p" "d" (some (Json.arr [Json.str "a", Json.str "b"])) none = "p d a, b"
    ∧ searchIndexOf "p" "d" (some (Json.arr [Json.str "a", Json.str "b"])) none
        ≠ searchIndexClaimed "p" "d" (some (Json.arr [Json.str "a", Json.str "b"])) none := by
  refine ⟨rfl, rfl, ?_⟩
  intro h
  have h' : ("p d a,b" : String) = "p d a, b" := h
  exact absurd h' (by decide)

theorem foldl_append_list {α β} (g : List β → α → List β) (f : α → List β)
    (hg : ∀ acc x, g acc x = acc ++ f x) :
    ∀ (l : List α) (init : List β), l.foldl g init = init ++ l.flatMap f := by
  intro l
  induction l with
  | nil => intro init; simp
  | cons a r ih =>
    intro init
    rw [List.foldl_cons, hg, ih, List.flatMap_cons, ← List.append_assoc]

/-- C1 (amended): the search index is built from the package name, the
package description, the *raw* keywords value — its JavaScript
stringification, included whenever the raw value is truthy, not the
Metadata Normalizer output — and, when a function manifest exists, each
function's name and truthy description in the manifest's declared order. -/
theorem c1_amended_search_index_uses_raw_keywords (n d : String) (kwRaw fd : Option Json) :
    searchIndexOf n d kwRaw fd = searchIndexAmended n d kwRaw fd := by
  have hfd : ∀ (init : List String),
      (jsEntries (fd.getD Json.null)).foldl (fun acc fe =>
        acc ++ [fe.1] ++ (match jsField fe.2 "description" with
          | some dd => if jsTruthy dd then [jsToString dd] else []
          | none => [])) init
      = init ++ (jsEntries (fd.getD Json.null)).flatMap (fun fe =>
          [fe.1] ++ (if jsTruthyOpt (jsField fe.2 "description") then
            [jsToString ((jsField fe.2 "description").getD Json.null)] else [])) := by
    intro init
    refine foldl_append_list _ _ ?_ _ init
    intro acc x
    cases hdx : jsField x.2 "description" with
    | none => simp [hdx, jsTruthyOpt]
    | some dd => cases htd : jsTruthy dd <;> simp [hdx, jsTruthyOpt, htd, List.append_assoc]
  simp only [searchIndexOf, searchIndexAmended]
  congr 2
  rw [hfd []]
  cases hf : jsTruthyOpt fd with
  | false =>
    cases kwRaw with
    | none => simp [hf, jsTruthyOpt]
    | some j => cases hj : jsTruthy j <;> simp [hf, hj, jsTruthyOpt]
  | true =>
    cases kwRaw with
    | none => simp [hf, jsTruthyOpt]
    | some j => cases hj : jsTruthy j <;> simp [hf, hj, jsTruthyOpt]

set_option maxRecDepth 8000 in
/-- Counterexample to C3 as stated: an archive that contains a
`readme.md` entry whose content is empty still triggers the Doc
Synthesizer (`if (!readmeContent)` treats the empty string as missing), so
the emitted document is the synthesized page, not the frontmatter followed
by the original (empty) readme. -/
theorem c3_counterexample :
    readmeEntryOf [⟨"readme.md", false, ""⟩] = some ⟨"readme.md", false, ""⟩
    ∧ (processVersion "n" ⟨"d", [], [("1", ⟨"p", []⟩)], "1"⟩ "1" ⟨"p", []⟩
        (some [⟨"readme.md", false, ""⟩])).indexMd
      = some (synthesizeReadme "n" "1" ⟨"d", [], [("1", ⟨"p", []⟩)], "1"⟩ ⟨"p", []⟩
          none (normalizeKw none) none none (searchIndexOf "n" "d" none none) true)
    ∧ (processVersion "n" ⟨"d", [], [("1", ⟨"p", []⟩)], "1"⟩ "1" ⟨"p", []⟩
        (some [⟨"readme.md", false, ""⟩])).indexMd
      ≠ some (mkFrontmatter "n" "1" "d" true (normalizeKw none) none none
          (searchIndexOf "n" "d" none none) [] ++ "") := by
  refine ⟨rfl, rfl, ?_⟩
  intro h
  exact absurd (Option.some.inj h) (by decide)

/-- C3 (amended): the Doc Synthesizer runs iff no *non-empty* readme text
was recovered: when the recovered readme text is non-empty, the emitted
`index.md` is the frontmatter block, then the original readme text
unmodified, then the API Reference section only when a function manifest
exists; when the recovered readme text is empty (entry absent, or present
with empty content), the emitted document is the synthesized form, which
always ends in the fixed auto-generated callout. -/
theorem c3_amended_synthesizer_on_empty_readme (n v : String) (pkg : PackageRecord)
    (vr : VersionRecord) (es : List Entry) :
    (readmeTextOf es ≠ "" →
      (processVersion n pkg v vr (some es)).indexMd
        = some (mkFrontmatter n v pkg.description (pkg.latest == v)
            (normalizeKw (jsField (projectConfigOf es) "keywords"))
            (jsField (projectConfigOf es) "homepage")
            (jsField (projectConfigOf es) "license")
            (searchIndexOf n pkg.description (jsField (projectConfigOf es) "keywords")
              (functionsDataOf es))
            vr.dependencies
          ++ readmeTextOf es
          ++ (if jsTruthyOpt (functionsDataOf es) then
                "\n\n" ++ generateApiDocs (functionsDataOf es) else "")))
    ∧ (readmeTextOf es = "" →
      (processVersion n pkg v vr (some es)).indexMd
        = some (synthesizeReadme n v pkg vr (functionsDataOf es)
            (normalizeKw (jsField (projectConfigOf es) "keywords"))
            (jsField (projectConfigOf es) "homepage")
            (jsField (projectConfigOf es) "license")
            (searchIndexOf n pkg.description (jsField (projectConfigOf es) "keywords")
              (functionsDataOf es))
            (pkg.latest == v)))
    ∧ (∀ (name version : String) (pkg' : PackageRecord) (vr' : VersionRecord) fd kw hp lic si lat,
        ∃ p, synthesizeReadme name version pkg' vr' fd kw hp lic si lat = p ++ calloutText) := by
  refine ⟨?_, ?_, ?_⟩
  · intro h
    simp only [processVersion]
    rw [if_neg h]
  · intro h
    simp only [processVersion]
    rw [if_pos h]
  · intro name version pkg' vr' fd kw hp lic si lat
    exact ⟨_, rfl⟩

set_option maxRecDepth 8000 in
/-- Witness for C3 at a concrete archive with a non-empty readme: the
emitted document is the frontmatter followed by the readme verbatim, with
no API section since no manifest exists. -/
theorem c3_witness :
    (processVersion "n" ⟨"d", [], [("1", ⟨"p", []⟩)], "1"⟩ "1" ⟨"p", []⟩
        (some [⟨"readme.md", false, "HELLO"⟩])).indexMd
      = some (mkFrontmatter "n" "1" "d" true (normalizeKw none) none none
          (searchIndexOf "n" "d" none none) [] ++ "HELLO" ++ "") :=
  (c3_amended_synthesizer_on_empty_readme "n" "1" ⟨"d", [], [("1", ⟨"p", []⟩)], "1"⟩ ⟨"p", []⟩
    [⟨"readme.md", false, "HELLO"⟩]).1 (by decide)

/-- Counterexample to C4 as stated: a directory entry `docs/sub/` is a
docs-prefixed entry of the archive, yet `hasDocs` stays false and nothing
is written, because the copy loop filters out directory entries. -/
theorem c4_counterexample :
    jsStartsWith "docs/sub/" "docs/" = true
    ∧ hasDocsOf [⟨"docs/sub/", true, ""⟩] = false
    ∧ docsWritesOf [⟨"docs/sub/", true, ""⟩] = [] :=
  ⟨rfl, rfl, rfl⟩

/-- C4 (amended): every *non-directory* entry whose name starts with the
literal prefix `docs/` is written byte-identically at its own relative
path under the version's output directory (the prefix is stripped and the
remainder placed back under `docs/`), and the `hasDocs` boolean recorded
in the metadata is true iff at least one such non-directory docs-prefixed
entry existed in the archive. -/
theorem c4_amended_docs_copy (es : List Entry) :
    (∀ e ∈ es, isDocsFileEntry e = true →
      ("docs/" ++ (⟨e.entryName.data.drop 5⟩ : String), e.data) ∈ docsWritesOf es
      ∧ "docs/" ++ (⟨e.entryName.data.drop 5⟩ : String) = e.entryName)
    ∧ (hasDocsOf es = true ↔
        ∃ e ∈ es, jsStartsWith e.entryName "docs/" = true ∧ e.isDirectory = false)
    ∧ (∀ (n : String) (pkg : PackageRecord) (v : String) (vr : VersionRecord),
        (processVersion n pkg v vr (some es)).docWrites = docsWritesOf es
        ∧ (processVersion n pkg v vr (some es)).metadata.map Metadata.hasDocs
            = some (hasDocsOf es)) := by
  refine ⟨?_, ?_, ?_⟩
  · intro e he hd
    constructor
    · exact List.mem_filterMap.mpr ⟨e, he, by simp [hd]⟩
    · have hsw : jsStartsWith e.entryName "docs/" = true := by
        have hd' := hd
        unfold isDocsFileEntry at hd'
        exact (Bool.and_eq_true _ _).mp hd' |>.1
      exact str_ext (isPrefixOf_append_drop "docs/".data e.entryName.data hsw)
  · simp [hasDocsOf, List.any_eq_true, isDocsFileEntry, Bool.and_eq_true, Bool.not_eq_true']
  · intro n pkg v vr
    exact ⟨rfl, rfl⟩

/-- Witness for C4: an archive containing `docs/guide.md` writes that
byte content at `docs/guide.md` and reports `hasDocs = true`. -/
theorem c4_witness :
    ("docs/guide.md", "G") ∈ docsWritesOf [⟨"docs/guide.md", false, "G"⟩]
    ∧ hasDocsOf [⟨"docs/guide.md", false, "G"⟩] = true := by
  have hc := c4_amended_docs_copy [⟨"docs/guide.md", false, "G"⟩]
  have hm := hc.1 ⟨"docs/guide.md", false, "G"⟩ (List.mem_singleton.mpr rfl) rfl
  refine ⟨?_, ?_⟩
  · have h1 := hm.1
    rw [hm.2] at h1
    exact h1
  · exact hc.2.1.mpr ⟨⟨"docs/guide.md", false, "G"⟩, List.mem_singleton.mpr rfl, rfl, rfl⟩

set_option maxRecDepth 8000 in
/-- Counterexample to C6 as stated: with an empty dependency list, the
literal text `_No dependencies_` is computed by the dependency renderer
but does not occur anywhere in the synthesized page — the rendering is
discarded, never interpolated into the template. -/
theorem c6_counterexample :
    renderDeps [] = "_No dependencies_"
    ∧ listContains (synthesizeReadme "p" "1" ⟨"d", [], [("1", ⟨"p", []⟩)], "1"⟩ ⟨"p", []⟩
        none (normalizeKw none) none none "p d" true).data "_No dependencies_".data = false :=
  ⟨rfl, rfl⟩

/-- C6 (amended): during synthesis a dependency rendering is computed —
the literal `_No dependencies_` for an empty list, else one markdown link
per dependency whose label is the specifier verbatim and whose target is
`/packages/` followed by the bare name, the longest leading run of ASCII
letters, digits and hyphens (for well-formed specifiers this strips a
trailing `@<rest>` or `>=<rest>` constraint, so `pkg>=1.2.0` and
`pkg@2.0.0` both derive `/packages/pkg`) — but the rendering is discarded:
the synthesized page is exactly frontmatter, API reference and callout. -/
theorem c6_amended_dep_rendering_discarded :
    renderDeps [] = "_No dependencies_"
    ∧ (∀ d ds, renderDeps (d :: ds)
        = String.intercalate "\n" ((d :: ds).map (fun d' =>
            "- [" ++ d' ++ "](/packages/" ++ depNameOf d' ++ ")")))
    ∧ depNameOf "pkg>=1.2.0" = "pkg" ∧ depNameOf "pkg@2.0.0" = "pkg"
    ∧ (∀ (name version : String) (pkg : PackageRecord) (vr : VersionRecord) fd kw hp lic si lat,
        synthesizeReadme name version pkg vr fd kw hp lic si lat
          = mkFrontmatter name version pkg.description lat kw hp lic si vr.dependencies
            ++ generateApiDocs fd ++ calloutText) := by
  refine ⟨rfl, ?_, rfl, rfl, ?_⟩
  · intro d ds
    show (if (d :: ds).length > 0 then
        String.intercalate "\n" ((d :: ds).map depLinkOf) else "_No dependencies_") = _
    rw [if_pos (by simp)]
    rfl
  · intro name version pkg vr fd kw hp lic si lat
    rfl

end ExtractDocs
